import Mathlib

set_option maxRecDepth 8000

/-!
Verification development for the writetracer repository.

The repository's core logic consists of:
* a suggestion selector (`SuggestionsPanel.tsx`): a pure function from
  `(contentLength, paragraphCount)` to an ordered list of suggestion cards,
  plus a display progress percentage, and
* a debounced save-status tracker (the page component): a handler
  `handleContentChange` over React state `saveStatus` / `saveTimerRef`
  together with `window.setTimeout` / `window.clearTimeout`.

Strings of the document are modelled as `List Char`; the TypeScript string
union types for `tone` and `priority` are modelled as `Option String` exactly
as in the source (`tone?: "structure" | ...`, `priority?: "high" | ...`).
-/

/-- One suggestion card, mirroring the `Suggestion` interface of
`SuggestionsPanel.tsx`: `id`, `title`, `description` are strings, `tone` and
`priority` are optional string literals. -/
structure Suggestion where
  id : String
  title : String
  description : String
  tone : Option String
  priority : Option String
deriving DecidableEq, Repr

/-- The bucket pushed when `contentLength < 100`. -/
def bucketShort : List Suggestion :=
  [ { id := "1",
      title := "목차와 구조를 먼저 잡아보세요",
      description := "서론–본론–결론의 뼈대를 먼저 만들면 글이 훨씬 안정적으로 전개돼요.",
      tone := some "structure",
      priority := some "high" },
    { id := "2",
      title := "핵심 주제를 한 문장으로 정리해보세요",
      description := "“이 글은 결국 무엇을 말하는가?”를 한 문장으로 못 박아보세요.",
      tone := some "clarity",
      priority := some "mid" } ]

/-- The bucket pushed when `100 <= contentLength < 500`. -/
def bucketMedium : List Suggestion :=
  [ { id := "1",
      title := "각 문단의 핵심을 1문장으로 요약해보세요",
      description := "문단의 주장/근거/결론이 분리되면 논리 흐름이 훨씬 또렷해져요.",
      tone := some "structure",
      priority := some "high" },
    { id := "2",
      title := "구체적인 예시나 사례를 추가해볼까요?",
      description := "추상적인 설명에 1개의 사례만 붙여도 설득력이 크게 올라가요.",
      tone := some "evidence",
      priority := some "mid" } ]

/-- The bucket pushed when `contentLength >= 500` and `paragraphCount < 3`. -/
def bucketFewParagraphs : List Suggestion :=
  [ { id := "1",
      title := "문단을 나누어 구조를 명확히 해보세요",
      description := "한 문단에는 ‘한 주장’만 담는 게 읽기 쉬운 글의 기본이에요.",
      tone := some "structure",
      priority := some "high" },
    { id := "2",
      title := "각 문단의 역할을 정의해보세요",
      description := "서론(문제)–본론(근거)–결론(요약/제안)이 있는지 점검해보세요.",
      tone := some "flow",
      priority := some "mid" } ]

/-- The bucket pushed in the final `else` branch
(`contentLength >= 500` and `paragraphCount >= 3`). -/
def bucketLong : List Suggestion :=
  [ { id := "1",
      title := "문단 간 연결이 자연스러운지 점검해보세요",
      description := "‘따라서/그러나/또한’ 같은 연결어가 흐름을 매끄럽게 만들어줘요.",
      tone := some "flow",
      priority := some "mid" },
    { id := "2",
      title := "근거를 어떤 형태로 보강할까요?",
      description := "사례·통계·인용 중 무엇이 이 문맥에 가장 잘 맞는지 골라보세요.",
      tone := some "evidence",
      priority := some "high" },
    { id := "3",
      title := "반대 의견을 한 번만 선제적으로 다뤄보세요",
      description := "반박을 미리 넣으면 논증 신뢰도가 크게 올라가요.",
      tone := some "clarity",
      priority := some "mid" },
    { id := "4",
      title := "결론을 ‘다음 행동’까지 포함해 강화해보세요",
      description := "요약 + 독자에게 남길 문장 1개 + 다음 단계(제안/다짐)로 마무리해요.",
      tone := some "structure",
      priority := some "high" } ]

/-- The defensive fallback card pushed when the selected bucket has fewer
than 2 entries. -/
def fallbackSuggestion : Suggestion :=
  { id := "default-1",
    title := "독자 관점에서 읽기 쉬운가요?",
    description := "전문 용어를 풀어쓰거나, 긴 문장을 둘로 나눌 수 있는지 확인해보세요.",
    tone := some "clarity",
    priority := some "low" }

/-- The cascade of `if`/`else if` branches of the `suggestions` memo in
`SuggestionsPanel.tsx`, before the defensive fallback and truncation. -/
def bucketFor (contentLength paragraphCount : Nat) : List Suggestion :=
  if contentLength < 100 then bucketShort
  else if contentLength < 500 then bucketMedium
  else if paragraphCount < 3 then bucketFewParagraphs
  else bucketLong

/-- The `suggestions` memo of `SuggestionsPanel.tsx` (the spec's `select`):
pick the bucket, append the fallback card if fewer than 2 entries were
produced, truncate to 4 (`s.slice(0, 4)`). -/
def suggestions (contentLength paragraphCount : Nat) : List Suggestion :=
  let s := bucketFor contentLength paragraphCount
  let s := if s.length < 2 then s ++ [fallbackSuggestion] else s
  s.take 4

/-!
## Progress percentage

`getProgress` in `SuggestionsPanel.tsx` is
`Math.round((clamp(contentLength, 0, 1000) / 1000) * 100)` evaluated in
JavaScript number arithmetic, i.e. IEEE 754 binary64.  The division and the
multiplication each round their exact result to the nearest binary64 value
(ties to even), and `Math.round` then rounds the exact value of the resulting
double to the nearest integer, half toward positive infinity.  We model a
(positive, non-overflowing, non-subnormal) binary64 rounding step exactly on
rationals: `roundDouble q` is the nearest 53-bit-significand dyadic rational
to `q`.  All intermediate values of `getProgress` lie well inside the normal
range, so this models the JavaScript computation exactly.
-/

/-- Fuel-driven binary search for the floor of the base-2 logarithm of a
positive rational (fuel 200 covers all magnitudes arising here). -/
def exp2Aux : Nat → ℚ → ℤ → ℤ
  | 0, _, e => e
  | fuel+1, q, e =>
    if q < 1 then exp2Aux fuel (q * 2) (e - 1)
    else if 2 ≤ q then exp2Aux fuel (q / 2) (e + 1)
    else e

/-- Floor of the base-2 logarithm of a positive rational. -/
def exp2 (q : ℚ) : ℤ := exp2Aux 200 q 0

/-- `2 ^ k` as a rational, for an integer exponent `k`. -/
def pow2 (k : ℤ) : ℚ :=
  if 0 ≤ k then ((2 ^ k.toNat : ℕ) : ℚ) else 1 / ((2 ^ (-k).toNat : ℕ) : ℚ)

/-- Round a nonnegative rational to the nearest IEEE 754 binary64 value
(53-bit significand, round to nearest, ties to even), exactly, as a rational.
Valid for values in the normal, non-overflowing range, which covers every
intermediate value of `getProgress`. -/
def roundDouble (q : ℚ) : ℚ :=
  if q ≤ 0 then 0 else
  let e : ℤ := exp2 q
  let scaled : ℚ := q * pow2 (52 - e)
  let m : ℤ := ⌊scaled⌋
  let r : ℚ := scaled - (m : ℚ)
  let m2 : ℤ :=
    if r < 1/2 then m
    else if 1/2 < r then m + 1
    else if m % 2 = 0 then m else m + 1
  (m2 : ℚ) * pow2 (e - 52)

/-- The `clamp` helper of `SuggestionsPanel.tsx`:
`Math.max(min, Math.min(max, n))`.  All arguments in the repository are
natural numbers, on which binary64 arithmetic is exact. -/
def clamp (n mn mx : ℕ) : ℕ := max mn (min mx n)

/-- `getProgress` of `SuggestionsPanel.tsx`:
`Math.round((clamp(contentLength, 0, 1000) / 1000) * 100)`, with the two
binary64 rounding steps of the division and the multiplication modelled by
`roundDouble`, and `Math.round` modelled exactly as nearest-integer,
half-up, on the exact value of the final double. -/
def getProgress (contentLength : ℕ) : ℤ :=
  round (roundDouble (roundDouble ((clamp contentLength 0 1000 : ℚ) / 1000) * 100))

/-- Modelled from the spec's words (for comparison with `getProgress`):
`round(clamp(length, 0, 1000) / 1000 * 100)` in exact rational
arithmetic. -/
def specProgress (n : ℕ) : ℤ := round (((min n 1000 : ℕ) : ℚ) / 1000 * 100)

/-- `getProgress n = specProgress n`, except at the four lengths where the
binary64 product falls just below the exact half-way point.  Decidable
one-point check, used for an exhaustive scan of the clamped domain. -/
def progressOk (n : ℕ) : Bool :=
  decide (getProgress n =
    specProgress n - (if n = 145 ∨ n = 285 ∨ n = 565 ∨ n = 575 then 1 else 0))

/-- `checkFrom lo k` checks `progressOk` on `lo, lo+1, ..., lo+k-1`. -/
def checkFrom (lo : ℕ) : ℕ → Bool
  | 0 => true
  | i+1 => progressOk (lo + i) && checkFrom lo i

/-!
## Text metrics

The page component (`handleContentChange`) derives two metrics from the
plain-text content emitted by the editor:
`content.length` and
`content.split("\n").filter((line) => line.trim().length > 0).length`.
Strings are modelled as `List Char`.
-/

/-- ECMAScript whitespace as recognised by `String.prototype.trim`:
WhiteSpace (TAB, VT, FF, SP, NBSP, ZWNBSP and the Unicode Space_Separator
category) together with the LineTerminator code points. -/
def isJsWhitespace (c : Char) : Bool :=
  [' ', '\t', '\n', '\x0B', '\x0C', '\r',
   '\u00A0', '\u1680',
   '\u2000', '\u2001', '\u2002', '\u2003', '\u2004', '\u2005', '\u2006',
   '\u2007', '\u2008', '\u2009', '\u200A', '\u2028', '\u2029', '\u202F',
   '\u205F', '\u3000', '\uFEFF'].contains c

/-- `line.trim()`: drop ECMAScript whitespace from both ends. -/
def jsTrim (l : List Char) : List Char :=
  ((l.dropWhile isJsWhitespace).reverse.dropWhile isJsWhitespace).reverse

/-- `content.split("\n")`: the maximal runs between newline characters, with
empty runs kept (`"" → [""]`, `"a\n" → ["a", ""]`), exactly as in
JavaScript's `String.prototype.split` with a one-character separator. -/
def splitLines : List Char → List (List Char)
  | [] => [[]]
  | c :: cs =>
    match splitLines cs with
    | [] => [[]]
    | l :: ls => if c = '\n' then [] :: l :: ls else (c :: l) :: ls

/-- The length metric of `handleContentChange`: `content.length`. -/
def contentLength (content : List Char) : ℕ := content.length

/-- The paragraph metric of `handleContentChange`:
`content.split("\n").filter((line) => line.trim().length > 0).length`. -/
def paragraphCount (content : List Char) : ℕ :=
  ((splitLines content).filter (fun line => decide (0 < (jsTrim line).length))).length

/-- Modelled from the spec's words (for comparison with `paragraphCount`):
the number of lines — maximal runs between newline characters — that contain
at least one non-whitespace character. -/
def specParagraphCount (content : List Char) : ℕ :=
  (splitLines content).countP (fun line => line.any (fun c => !(isJsWhitespace c)))

/-!
## The debounced save-status tracker

The page component keeps `saveStatus` (`"Saved" | "Editing"`, initially
`"Saved"`) and a mutable timer handle `saveTimerRef`.  `handleContentChange`
recomputes the metrics and, when the content is nonempty, sets the status to
`Editing`, clears any previously scheduled timeout and schedules a new
900-unit timeout whose callback sets the status to `Saved`.  The `useEffect`
cleanup clears any scheduled timeout on unmount.

The browser timer machinery is modelled explicitly: `timeouts` is the list of
live (scheduled, unfired, uncancelled) timeouts; `window.setTimeout` appends
a fresh timeout with a fresh positive id and returns that id;
`window.clearTimeout` removes the timeout with the given id (a no-op for an
id that already fired or was already cleared, hence idempotent).  Since every
id handed out is positive, the JavaScript truthiness test
`if (saveTimerRef.current)` coincides with the `Option` being `some`.
The event loop is single-threaded: between handler invocations, every due
timeout (deadline ≤ current time) fires, and each fired callback sets the
status to `Saved`.
-/

/-- The save status: `"Saved" | "Editing"` of the page component. -/
inductive SaveStatus
  | Saved
  | Editing
deriving DecidableEq, Repr

/-- A live (scheduled, unfired, uncancelled) `window.setTimeout` timeout of
the tracker: its id and its absolute fire time. -/
structure PendingTimeout where
  id : ℕ
  deadline : ℕ
deriving DecidableEq, Repr

/-- The component state together with the browser timer state. -/
structure World where
  saveStatus : SaveStatus
  saveTimerRef : Option ℕ
  contentLength : ℕ
  paragraphCount : ℕ
  timeouts : List PendingTimeout
  nextTimeoutId : ℕ
  mounted : Bool
deriving DecidableEq, Repr

/-- The freshly mounted component: status `Saved`, no timer handle, zero
metrics, no live timeouts; timeout ids are handed out from 1. -/
def initialWorld : World :=
  { saveStatus := SaveStatus.Saved
    saveTimerRef := none
    contentLength := 0
    paragraphCount := 0
    timeouts := []
    nextTimeoutId := 1
    mounted := true }

/-- `window.clearTimeout tid`: remove the live timeout with id `tid`, if
any.  Idempotent by construction. -/
def clearTimeout (ts : List PendingTimeout) (tid : ℕ) : List PendingTimeout :=
  ts.filter (fun t => t.id != tid)

/-- `handleContentChange(content)` invoked at time `now`: recompute the two
metrics; if `content.length > 0`, set status to `Editing`, clear the
previously scheduled timeout (if the ref holds an id), and schedule a new
timeout 900 units from now, storing its id in the ref. -/
def handleContentChange (w : World) (now : ℕ) (content : List Char) : World :=
  let w1 := { w with contentLength := content.length
                     paragraphCount := paragraphCount content }
  if 0 < content.length then
    let w2 := { w1 with saveStatus := SaveStatus.Editing }
    let w3 :=
      match w2.saveTimerRef with
      | some tid => { w2 with timeouts := clearTimeout w2.timeouts tid }
      | none => w2
    { w3 with
      timeouts := w3.timeouts ++ [⟨w3.nextTimeoutId, now + 900⟩]
      saveTimerRef := some w3.nextTimeoutId
      nextTimeoutId := w3.nextTimeoutId + 1 }
  else w1

/-- Advance the event loop to time `now`: every live timeout whose deadline
has passed fires and is removed; each fired callback is
`() => setSaveStatus("Saved")`, so the status becomes `Saved` exactly when at
least one timeout fires. -/
def fireDue (w : World) (now : ℕ) : World :=
  { w with
    saveStatus :=
      if w.timeouts.any (fun t => decide (t.deadline ≤ now)) then SaveStatus.Saved
      else w.saveStatus
    timeouts := w.timeouts.filter (fun t => !(decide (t.deadline ≤ now))) }

/-- An external event delivered to the component: a content-change
notification from the editor, or the unmount of the component. -/
inductive Event
  | contentChange (content : List Char)
  | unmount
deriving Repr

/-- Deliver one event at time `now`.  A content change runs
`handleContentChange` (only a mounted component's handler can be invoked);
unmount runs the `useEffect` cleanup, which clears the timeout referenced by
`saveTimerRef`. -/
def applyEvent (w : World) (now : ℕ) : Event → World
  | Event.contentChange content =>
    if w.mounted then handleContentChange w now content else w
  | Event.unmount =>
    if w.mounted then
      { (match w.saveTimerRef with
         | some tid => { w with timeouts := clearTimeout w.timeouts tid }
         | none => w) with
        mounted := false }
    else w

/-- One scheduling step at time `now`: first every due timeout fires, then
the event is delivered. -/
def step (w : World) (now : ℕ) (e : Event) : World :=
  applyEvent (fireDue w now) now e

/-- Process a time-ordered list of `(time, event)` pairs. -/
def run (w : World) : List (ℕ × Event) → World
  | [] => w
  | (t, e) :: rest => run (step w t e) rest

/-- The status visible at time `T`, starting from world `w`: deliver the
events that happen no later than `T`, then fire the timeouts due by `T`. -/
def statusAtFrom (w : World) (evs : List (ℕ × Event)) (T : ℕ) : SaveStatus :=
  (fireDue (run w (evs.filter (fun p => decide (p.1 ≤ T)))) T).saveStatus

/-- The status visible at time `T` for a freshly mounted component. -/
def statusAt (evs : List (ℕ × Event)) (T : ℕ) : SaveStatus :=
  statusAtFrom initialWorld evs T

/-- A list of timed content-change calls, as timed events. -/
def evsOf (calls : List (ℕ × List Char)) : List (ℕ × Event) :=
  calls.map (fun p => (p.1, Event.contentChange p.2))

/-- The state of a tracker that is mid-debounce: mounted, status `Editing`,
and exactly one live timeout — the one scheduled by the call at `tLast`,
with the id held in `saveTimerRef`. -/
def TrackerInv (w : World) (tLast : ℕ) : Prop :=
  w.mounted = true ∧ w.saveStatus = SaveStatus.Editing ∧
    ∃ i, w.saveTimerRef = some i ∧ w.timeouts = [⟨i, tLast + 900⟩]

/-- The timer-resource invariant: at most one live timeout, and every live
timeout is the one referenced by `saveTimerRef`. -/
def TimerInv (w : World) : Prop :=
  w.timeouts.length ≤ 1 ∧ ∀ tm ∈ w.timeouts, w.saveTimerRef = some tm.id

/-!
## Lemmas and claim theorems

First the suggestion selector: the four branch conditions are mutually
exclusive and exhaustive, the selected bucket is returned literally (the
defensive fallback never fires and the truncation to 4 is the identity on
every bucket).
-/

lemma bucketFor_eq_short {L P : ℕ} (h : L < 100) : bucketFor L P = bucketShort := by
  unfold bucketFor; rw [if_pos h]

lemma bucketFor_eq_medium {L P : ℕ} (h1 : 100 ≤ L) (h2 : L < 500) :
    bucketFor L P = bucketMedium := by
  unfold bucketFor; rw [if_neg (by omega), if_pos h2]

lemma bucketFor_eq_few {L P : ℕ} (h1 : 500 ≤ L) (h2 : P < 3) :
    bucketFor L P = bucketFewParagraphs := by
  unfold bucketFor; rw [if_neg (by omega), if_neg (by omega), if_pos h2]

lemma bucketFor_eq_long {L P : ℕ} (h1 : 500 ≤ L) (h2 : 3 ≤ P) :
    bucketFor L P = bucketLong := by
  unfold bucketFor; rw [if_neg (by omega), if_neg (by omega), if_neg (by omega)]

lemma bucketFor_length (L P : ℕ) :
    (bucketFor L P).length = 2 ∨ (bucketFor L P).length = 4 := by
  unfold bucketFor
  split_ifs <;> simp [bucketShort, bucketMedium, bucketFewParagraphs, bucketLong]

lemma suggestions_eq (L P : ℕ) : suggestions L P = (bucketFor L P).take 4 := by
  unfold suggestions
  rcases bucketFor_length L P with h | h <;> simp [h]

/-- C1: the four bucket rules are evaluated in order with first match
winning, and the matched bucket's literal list is returned in its intrinsic
order; `select(600, 1)` hits the `paragraphCount < 3` bucket (2 suggestions,
first tone `structure`, priority `high`) and `select(600, 5)` hits the final
bucket (exactly 4 suggestions with tones flow, evidence, clarity, structure
and priorities mid, high, mid, high in that order). -/
theorem suggestions_bucket_rules :
    (∀ L P : ℕ, L < 100 → suggestions L P = bucketShort)
    ∧ (∀ L P : ℕ, 100 ≤ L → L < 500 → suggestions L P = bucketMedium)
    ∧ (∀ L P : ℕ, 500 ≤ L → P < 3 → suggestions L P = bucketFewParagraphs)
    ∧ (∀ L P : ℕ, 500 ≤ L → 3 ≤ P → suggestions L P = bucketLong)
    ∧ suggestions 600 1 = bucketFewParagraphs
    ∧ (suggestions 600 1).length = 2
    ∧ ((suggestions 600 1).map (fun s => s.tone)).head? = some (some "structure")
    ∧ ((suggestions 600 1).map (fun s => s.priority)).head? = some (some "high")
    ∧ (suggestions 600 5).length = 4
    ∧ (suggestions 600 5).map (fun s => s.tone)
        = [some "flow", some "evidence", some "clarity", some "structure"]
    ∧ (suggestions 600 5).map (fun s => s.priority)
        = [some "mid", some "high", some "mid", some "high"] := by
  refine ⟨?_, ?_, ?_, ?_, rfl, rfl, rfl, rfl, rfl, rfl, rfl⟩
  · intro L P h; rw [suggestions_eq, bucketFor_eq_short h]; rfl
  · intro L P h1 h2; rw [suggestions_eq, bucketFor_eq_medium h1 h2]; rfl
  · intro L P h1 h2; rw [suggestions_eq, bucketFor_eq_few h1 h2]; rfl
  · intro L P h1 h2; rw [suggestions_eq, bucketFor_eq_long h1 h2]; rfl

/-- Witness for C1 at concrete inputs: each bucket equation applied at a
point satisfying its guard. -/
theorem suggestions_bucket_rules_witness :
    suggestions 50 0 = bucketShort
    ∧ suggestions 300 1 = bucketMedium
    ∧ suggestions 600 1 = bucketFewParagraphs
    ∧ suggestions 600 5 = bucketLong :=
  ⟨suggestions_bucket_rules.1 50 0 (by decide),
   suggestions_bucket_rules.2.1 300 1 (by decide) (by decide),
   suggestions_bucket_rules.2.2.1 600 1 (by decide) (by decide),
   suggestions_bucket_rules.2.2.2.1 600 5 (by decide) (by decide)⟩

/-- C3: for every `length >= 0` and `paragraphCount >= 0`, `select` returns
between 2 and 4 suggestions inclusive. -/
theorem suggestions_length_bounds (L P : ℕ) :
    2 ≤ (suggestions L P).length ∧ (suggestions L P).length ≤ 4 := by
  rw [suggestions_eq]
  rcases bucketFor_length L P with h | h <;> simp [List.length_take, h]

/-- C9: the defensive fallback is unreachable — every matched bucket already
holds at least 2 suggestions, `select` is exactly the bucket truncated to 4,
and the fallback card (id `"default-1"`) never appears in a returned list. -/
theorem fallback_unreachable (L P : ℕ) :
    2 ≤ (bucketFor L P).length
    ∧ suggestions L P = (bucketFor L P).take 4
    ∧ fallbackSuggestion.id ∉ (suggestions L P).map (fun s => s.id) := by
  refine ⟨?_, suggestions_eq L P, ?_⟩
  · unfold bucketFor; split_ifs <;> decide
  · rw [suggestions_eq]; unfold bucketFor; split_ifs <;> decide

/-!
## Progress: exhaustive scan of the clamped domain

`getProgress` only depends on `clamp contentLength 0 1000`, so its behaviour
is settled by checking the 1001 clamped inputs.  The binary64 evaluation
agrees with the exact formula everywhere except at 145, 285, 565 and 575,
where the rounded double product falls just below the exact half-way point
(for instance `0.145 * 100` is the double `14.499999999999998`), so
`Math.round` rounds down where exact arithmetic rounds up.
-/

lemma checkFrom_sound (lo : ℕ) :
    ∀ k, checkFrom lo k = true → ∀ i, i < k → progressOk (lo + i) = true := by
  intro k
  induction k with
  | zero => intro _ i h; omega
  | succ k ih =>
    intro h i hik
    rw [checkFrom, Bool.and_eq_true] at h
    rcases Nat.lt_succ_iff_lt_or_eq.mp hik with h' | rfl
    · exact ih h.2 i h'
    · exact h.1

set_option maxHeartbeats 1000000 in
lemma progress_chunk0 : checkFrom 0 100 = true := by with_unfolding_all decide

set_option maxHeartbeats 1000000 in
lemma progress_chunk1 : checkFrom 100 100 = true := by with_unfolding_all decide

set_option maxHeartbeats 1000000 in
lemma progress_chunk2 : checkFrom 200 100 = true := by with_unfolding_all decide

set_option maxHeartbeats 1000000 in
lemma progress_chunk3 : checkFrom 300 100 = true := by with_unfolding_all decide

set_option maxHeartbeats 1000000 in
lemma progress_chunk4 : checkFrom 400 100 = true := by with_unfolding_all decide

set_option maxHeartbeats 1000000 in
lemma progress_chunk5 : checkFrom 500 100 = true := by with_unfolding_all decide

set_option maxHeartbeats 1000000 in
lemma progress_chunk6 : checkFrom 600 100 = true := by with_unfolding_all decide

set_option maxHeartbeats 1000000 in
lemma progress_chunk7 : checkFrom 700 100 = true := by with_unfolding_all decide

set_option maxHeartbeats 1000000 in
lemma progress_chunk8 : checkFrom 800 100 = true := by with_unfolding_all decide

set_option maxHeartbeats 1000000 in
lemma progress_chunk9 : checkFrom 900 100 = true := by with_unfolding_all decide

set_option maxHeartbeats 1000000 in
lemma progress_chunk10 : checkFrom 1000 1 = true := by with_unfolding_all decide

lemma progressOk_all (n : ℕ) (hn : n ≤ 1000) : progressOk n = true := by
  have cover : ∀ lo k, checkFrom lo k = true → lo ≤ n → n < lo + k → progressOk n = true := by
    intro lo k hck hlo hhi
    have := checkFrom_sound lo k hck (n - lo) (by omega)
    rwa [show lo + (n - lo) = n by omega] at this
  rcases Nat.lt_or_ge n 100 with h | h
  · exact cover 0 100 progress_chunk0 (by omega) (by omega)
  rcases Nat.lt_or_ge n 200 with h2 | h2
  · exact cover 100 100 progress_chunk1 h (by omega)
  rcases Nat.lt_or_ge n 300 with h3 | h3
  · exact cover 200 100 progress_chunk2 h2 (by omega)
  rcases Nat.lt_or_ge n 400 with h4 | h4
  · exact cover 300 100 progress_chunk3 h3 (by omega)
  rcases Nat.lt_or_ge n 500 with h5 | h5
  · exact cover 400 100 progress_chunk4 h4 (by omega)
  rcases Nat.lt_or_ge n 600 with h6 | h6
  · exact cover 500 100 progress_chunk5 h5 (by omega)
  rcases Nat.lt_or_ge n 700 with h7 | h7
  · exact cover 600 100 progress_chunk6 h6 (by omega)
  rcases Nat.lt_or_ge n 800 with h8 | h8
  · exact cover 700 100 progress_chunk7 h7 (by omega)
  rcases Nat.lt_or_ge n 900 with h9 | h9
  · exact cover 800 100 progress_chunk8 h8 (by omega)
  rcases Nat.lt_or_ge n 1000 with h10 | h10
  · exact cover 900 100 progress_chunk9 h9 (by omega)
  · exact cover 1000 1 progress_chunk10 h10 (by omega)

lemma floor_natCast_div (a b : ℕ) (hb : 0 < b) :
    ⌊((a : ℚ)) / ((b : ℚ))⌋ = ((a / b : ℕ) : ℤ) := by
  have hbq : (0 : ℚ) < (b : ℚ) := by exact_mod_cast hb
  rw [Int.floor_eq_iff]
  constructor
  · rw [le_div_iff₀ hbq]
    have : ((a / b) * b : ℕ) ≤ a := Nat.div_mul_le_self a b
    push_cast
    exact_mod_cast this
  · rw [div_lt_iff₀ hbq]
    have hlt : a < (a / b + 1) * b := by
      have h1 := Nat.div_add_mod a b
      have h2 := Nat.mod_lt a hb
      calc a = b * (a / b) + a % b := h1.symm
        _ < b * (a / b) + b := by omega
        _ = (a / b + 1) * b := by ring
    push_cast
    exact_mod_cast hlt

lemma specProgress_eq (n : ℕ) :
    specProgress n = (((min n 1000 + 5) / 10 : ℕ) : ℤ) := by
  unfold specProgress
  rw [round_eq]
  have h : ((min n 1000 : ℕ) : ℚ) / 1000 * 100 + 1/2
      = ((min n 1000 * 200 + 1000 : ℕ) : ℚ) / ((2000 : ℕ) : ℚ) := by
    push_cast; ring
  rw [h, floor_natCast_div _ _ (by norm_num)]
  congr 1
  omega

lemma getProgress_clamp (n : ℕ) : getProgress n = getProgress (min n 1000) := by
  unfold getProgress
  rw [show clamp n 0 1000 = clamp (min n 1000) 0 1000 by unfold clamp; omega]

lemma specProgress_min (n : ℕ) : specProgress n = specProgress (min n 1000) := by
  unfold specProgress
  rw [show min (min n 1000) 1000 = min n 1000 by omega]

lemma getProgress_char (n : ℕ) :
    getProgress n = specProgress n -
      (if n = 145 ∨ n = 285 ∨ n = 565 ∨ n = 575 then 1 else 0) := by
  by_cases h : n ≤ 1000
  · have hok := progressOk_all n h
    unfold progressOk at hok
    exact of_decide_eq_true hok
  · have h1000 : min n 1000 = 1000 := by omega
    have hbase : getProgress 1000 = specProgress 1000 - 0 := by
      have hok := progressOk_all 1000 (by omega)
      unfold progressOk at hok
      simpa using of_decide_eq_true hok
    rw [getProgress_clamp n, specProgress_min n, h1000,
      if_neg (by omega)]
    simpa using hbase

/-- C6, counterexample: at `length = 145` the code's binary64 evaluation
yields 14 (the double `0.145 * 100 = 14.499999999999998` rounds down), while
the exact formula `round(clamp(145, 0, 1000) / 1000 * 100) = round(14.5)`
yields 15, so `progress(length) = round(clamp(length,0,1000)/1000*100)` fails
at 145. -/
theorem getProgress_formula_counterexample :
    getProgress 145 = 14 ∧ specProgress 145 = 15 ∧
      getProgress 145 ≠ specProgress 145 := by
  refine ⟨?_, ?_, ?_⟩ <;> with_unfolding_all decide

/-- C6, amended: `progress(length)` is
`round(clamp(length, 0, 1000) / 1000 * 100)` as evaluated in binary64
arithmetic, which equals the exact formula everywhere except at lengths 145,
285, 565 and 575, where it is one less.  It is an integer in `[0, 100]`,
monotonic non-decreasing in `length`, and saturates at 1000 characters:
`progress(0) = 0`, `progress(500) = 50`, `progress(1000) = 100`,
`progress(5000) = 100`. -/
theorem getProgress_amended :
    (∀ n : ℕ, getProgress n = specProgress n -
        (if n = 145 ∨ n = 285 ∨ n = 565 ∨ n = 575 then 1 else 0))
    ∧ getProgress 0 = 0 ∧ getProgress 500 = 50 ∧ getProgress 1000 = 100
    ∧ getProgress 5000 = 100
    ∧ (∀ n : ℕ, 0 ≤ getProgress n ∧ getProgress n ≤ 100)
    ∧ (∀ a b : ℕ, a ≤ b → getProgress a ≤ getProgress b)
    ∧ (∀ n : ℕ, 1000 ≤ n → getProgress n = getProgress 1000) := by
  have hchar : ∀ n : ℕ, getProgress n = (((min n 1000 + 5) / 10 : ℕ) : ℤ) -
      (if n = 145 ∨ n = 285 ∨ n = 565 ∨ n = 575 then 1 else 0) := by
    intro n
    rw [getProgress_char n, specProgress_eq n]
  refine ⟨fun n => getProgress_char n, ?_, ?_, ?_, ?_, ?_, ?_, ?_⟩
  · rw [hchar 0]; norm_num
  · rw [hchar 500]; norm_num
  · rw [hchar 1000]; norm_num
  · rw [hchar 5000]; norm_num
  · intro n
    have h := hchar n
    by_cases hx : n = 145 ∨ n = 285 ∨ n = 565 ∨ n = 575
    · rw [if_pos hx] at h
      rcases hx with rfl | rfl | rfl | rfl <;> omega
    · rw [if_neg hx] at h; omega
  · intro a b hab
    have ha := hchar a
    have hb := hchar b
    by_cases hxa : a = 145 ∨ a = 285 ∨ a = 565 ∨ a = 575 <;>
      by_cases hxb : b = 145 ∨ b = 285 ∨ b = 565 ∨ b = 575
    · rw [if_pos hxa] at ha; rw [if_pos hxb] at hb
      rcases hxa with rfl | rfl | rfl | rfl <;> omega
    · rw [if_pos hxa] at ha; rw [if_neg hxb] at hb
      push_neg at hxb
      rcases hxa with rfl | rfl | rfl | rfl <;> omega
    · rw [if_neg hxa] at ha; rw [if_pos hxb] at hb
      push_neg at hxa
      rcases hxb with rfl | rfl | rfl | rfl <;> omega
    · rw [if_neg hxa] at ha; rw [if_neg hxb] at hb
      omega
  · intro n hn
    rw [getProgress_clamp n, show min n 1000 = 1000 by omega]

/-- Witness for C6 (amended) at concrete inputs: monotonicity applied at
`3 ≤ 7`, the pointwise characterization at a non-exceptional input, and the
saturation clause at 2000. -/
theorem getProgress_amended_witness :
    getProgress 3 ≤ getProgress 7
    ∧ getProgress 250 = specProgress 250 - 0
    ∧ getProgress 2000 = getProgress 1000 :=
  ⟨getProgress_amended.2.2.2.2.2.2.1 3 7 (by decide),
   by
    have h := getProgress_amended.1 250
    rwa [if_neg (by decide)] at h,
   getProgress_amended.2.2.2.2.2.2.2 2000 (by decide)⟩

/-!
## Paragraph counting

`line.trim().length > 0` holds exactly when the line contains at least one
non-whitespace character, so the code's filter agrees with the spec's
"non-blank line" count; and each counted line contributes at least one
character to the content, so the count is bounded by the length.
-/

lemma splitLines_cons (c : Char) (cs : List Char) :
    splitLines (c :: cs) =
      match splitLines cs with
      | [] => [[]]
      | l :: ls => if c = '\n' then [] :: l :: ls else (c :: l) :: ls := rfl

lemma splitLines_ne_nil (cs : List Char) : splitLines cs ≠ [] := by
  cases cs with
  | nil => simp [splitLines]
  | cons c cs' =>
    rw [splitLines_cons]
    cases h : splitLines cs' with
    | nil => simp
    | cons l ls => by_cases hc : c = '\n' <;> simp [hc]

lemma jsTrim_eq_nil_iff (l : List Char) :
    jsTrim l = [] ↔ ∀ x ∈ l, isJsWhitespace x = true := by
  unfold jsTrim
  rw [List.reverse_eq_nil_iff, List.dropWhile_eq_nil_iff]
  constructor
  · intro h x hx
    rw [← List.takeWhile_append_dropWhile (p := isJsWhitespace) (l := l)] at hx
    rcases List.mem_append.mp hx with h1 | h2
    · exact List.mem_takeWhile_imp h1
    · exact h x (List.mem_reverse.mpr h2)
  · intro h x hx
    exact h x ((List.dropWhile_sublist _).subset (List.mem_reverse.mp hx))

lemma jsTrim_pos_iff (l : List Char) :
    0 < (jsTrim l).length ↔ l.any (fun c => !(isJsWhitespace c)) = true := by
  rw [List.length_pos, Ne, jsTrim_eq_nil_iff]
  simp [List.any_eq_true]

lemma paragraphCount_eq_spec (content : List Char) :
    paragraphCount content = specParagraphCount content := by
  unfold paragraphCount specParagraphCount
  rw [List.countP_eq_length_filter]
  congr 1
  apply List.filter_congr
  intro line _
  cases hb : line.any (fun c => !(isJsWhitespace c)) with
  | true => exact decide_eq_true ((jsTrim_pos_iff line).mpr hb)
  | false =>
    apply decide_eq_false
    intro hpos
    rw [(jsTrim_pos_iff line)] at hpos
    rw [hpos] at hb
    cases hb

lemma countP_splitLines_le (cs : List Char) :
    (splitLines cs).countP (fun line => line.any (fun c => !(isJsWhitespace c)))
      ≤ cs.length := by
  induction cs with
  | nil => simp [splitLines]
  | cons c cs ih =>
    cases h : splitLines cs with
    | nil => exact absurd h (splitLines_ne_nil cs)
    | cons l ls =>
      rw [splitLines_cons, h]
      rw [h] at ih
      dsimp only
      by_cases hc : c = '\n'
      · rw [if_pos hc]
        simp only [List.countP_cons, List.any_nil, Bool.false_eq_true, if_false,
          List.length_cons] at ih ⊢
        omega
      · rw [if_neg hc]
        simp only [List.countP_cons, List.length_cons] at ih ⊢
        by_cases hl : l.any (fun ch => !(isJsWhitespace ch)) = true
        · have hcl : (c :: l).any (fun ch => !(isJsWhitespace ch)) = true := by
            simp [List.any_cons, hl]
          simp only [hl, hcl, if_pos] at ih ⊢
          omega
        · rw [Bool.not_eq_true] at hl
          rw [hl] at ih
          by_cases hcl : (c :: l).any (fun ch => !(isJsWhitespace ch)) = true <;>
            simp only [hcl, Bool.false_eq_true, if_true, if_false] at ih ⊢ <;>
            omega

/-- C5: for every content string, `paragraphCount` equals the number of
lines (maximal runs between newline characters under split on `"\n"`) that
contain at least one non-whitespace character; in particular
`"a\n\nb\n  \nc"` yields 3. -/
theorem paragraphCount_spec (content : List Char) :
    paragraphCount content = specParagraphCount content
    ∧ paragraphCount ['a', '\n', '\n', 'b', '\n', ' ', ' ', '\n', 'c'] = 3 :=
  ⟨paragraphCount_eq_spec content, by decide⟩

/-- C10: the two derived metrics satisfy
`paragraphCount content <= content.length`; a zero-length content has zero
paragraphs, and the empty document selects the first bucket. -/
theorem paragraphCount_le_contentLength (content : List Char) :
    paragraphCount content ≤ contentLength content
    ∧ (contentLength content = 0 →
        paragraphCount content = 0
        ∧ suggestions (contentLength content) (paragraphCount content)
            = bucketShort) := by
  constructor
  · rw [paragraphCount_eq_spec]
    exact countP_splitLines_le content
  · intro h0
    have : content = [] := List.length_eq_zero.mp h0
    subst this
    exact ⟨rfl, rfl⟩

/-- Witness for C5 at a concrete content string. -/
theorem paragraphCount_spec_witness :
    paragraphCount ['a', '\n', 'b'] = specParagraphCount ['a', '\n', 'b'] :=
  (paragraphCount_spec ['a', '\n', 'b']).1

/-- Witness for C10: the hypothesis `contentLength content = 0` discharged
at the empty content. -/
theorem paragraphCount_le_contentLength_witness :
    paragraphCount [] = 0 ∧ suggestions (contentLength []) (paragraphCount []) = bucketShort :=
  ⟨((paragraphCount_le_contentLength []).2 rfl).1,
   ((paragraphCount_le_contentLength []).2 rfl).2⟩

/-!
## The tracker: frame property of empty content, debounce, timer invariants
-/

lemma fireDue_saveTimerRef (w : World) (now : ℕ) :
    (fireDue w now).saveTimerRef = w.saveTimerRef := rfl

lemma fireDue_mounted (w : World) (now : ℕ) :
    (fireDue w now).mounted = w.mounted := rfl

lemma fireDue_nextTimeoutId (w : World) (now : ℕ) :
    (fireDue w now).nextTimeoutId = w.nextTimeoutId := rfl

lemma fireDue_timeouts (w : World) (now : ℕ) :
    (fireDue w now).timeouts
      = w.timeouts.filter (fun t => !(decide (t.deadline ≤ now))) := rfl

lemma handleContentChange_mounted (w : World) (now : ℕ) (c : List Char) :
    (handleContentChange w now c).mounted = w.mounted := by
  unfold handleContentChange
  split_ifs <;> cases href : w.saveTimerRef <;> simp [href]

/-- C4: a call with `newLength == 0` leaves the tracker state untouched:
the status is not modified, no timeout is scheduled, the pending timeout is
not cleared, and no timeout id is consumed (only the two metrics are
recomputed). -/
theorem contentChange_zero_noop (w : World) (now : ℕ) (content : List Char)
    (h : content.length = 0) :
    (handleContentChange w now content).saveStatus = w.saveStatus
    ∧ (handleContentChange w now content).saveTimerRef = w.saveTimerRef
    ∧ (handleContentChange w now content).timeouts = w.timeouts
    ∧ (handleContentChange w now content).nextTimeoutId = w.nextTimeoutId
    ∧ (handleContentChange w now content).mounted = w.mounted := by
  unfold handleContentChange
  rw [if_neg (by omega)]
  exact ⟨rfl, rfl, rfl, rfl, rfl⟩

/-- Witness for C4: a zero-length call on a mid-debounce world (one pending
timeout) changes neither the status nor the pending timeout. -/
theorem contentChange_zero_noop_witness :
    (handleContentChange
        { saveStatus := SaveStatus.Editing, saveTimerRef := some 1,
          contentLength := 1, paragraphCount := 1,
          timeouts := [⟨1, 900⟩], nextTimeoutId := 2, mounted := true }
        100 []).saveStatus = SaveStatus.Editing
    ∧ (handleContentChange
        { saveStatus := SaveStatus.Editing, saveTimerRef := some 1,
          contentLength := 1, paragraphCount := 1,
          timeouts := [⟨1, 900⟩], nextTimeoutId := 2, mounted := true }
        100 []).timeouts = [⟨1, 900⟩] := by
  have h := contentChange_zero_noop
    { saveStatus := SaveStatus.Editing, saveTimerRef := some 1,
      contentLength := 1, paragraphCount := 1,
      timeouts := [⟨1, 900⟩], nextTimeoutId := 2, mounted := true }
    100 [] rfl
  exact ⟨h.1, h.2.2.1⟩

lemma chain_getLastD_ge {t : ℕ} {ts : List ℕ}
    (h : List.Chain (fun a b => a ≤ b ∧ b < a + 900) t ts) : t ≤ ts.getLastD t := by
  induction h with
  | nil => exact le_refl _
  | cons hab _ ih => rw [List.getLastD_cons]; exact le_trans hab.1 ih

lemma chain_le_all {t : ℕ} {ts : List ℕ}
    (h : List.Chain (fun a b => a ≤ b ∧ b < a + 900) t ts) : ∀ x ∈ ts, t ≤ x := by
  induction h with
  | nil => intro x hx; cases hx
  | cons hab _ ih =>
    intro x hx
    rcases List.mem_cons.mp hx with rfl | hx'
    · exact hab.1
    · exact le_trans hab.1 (ih x hx')

lemma evsOf_cons (t : ℕ) (c : List Char) (calls : List (ℕ × List Char)) :
    evsOf ((t, c) :: calls) = (t, Event.contentChange c) :: evsOf calls := rfl

lemma statusAtFrom_cons {w : World} {t : ℕ} {e : Event} {evs : List (ℕ × Event)}
    {T : ℕ} (h : t ≤ T) :
    statusAtFrom w ((t, e) :: evs) T = statusAtFrom (step w t e) evs T := by
  unfold statusAtFrom
  rw [List.filter_cons_of_pos (by simpa using h)]
  rfl

lemma statusAtFrom_of_future {w : World} {evs : List (ℕ × Event)} {T : ℕ}
    (h : ∀ p ∈ evs, ¬ p.1 ≤ T) :
    statusAtFrom w evs T = (fireDue w T).saveStatus := by
  unfold statusAtFrom
  rw [List.filter_eq_nil_iff.mpr (by intro a ha; simpa using h a ha)]
  rfl

lemma inv_fireDue_editing {w : World} {tPrev T : ℕ}
    (hInv : TrackerInv w tPrev) (hT : T < tPrev + 900) :
    (fireDue w T).saveStatus = SaveStatus.Editing := by
  obtain ⟨hm, hs, i, href, htos⟩ := hInv
  have hnd : ¬ (tPrev + 900 ≤ T) := by omega
  simp [fireDue, htos, hnd, hs]

lemma inv_fireDue_saved {w : World} {tPrev T : ℕ}
    (hInv : TrackerInv w tPrev) (hT : tPrev + 900 ≤ T) :
    (fireDue w T).saveStatus = SaveStatus.Saved := by
  obtain ⟨hm, hs, i, href, htos⟩ := hInv
  simp [fireDue, htos, hT]

lemma step_first {w : World} {t : ℕ} {c : List Char} (hm : w.mounted = true)
    (href : w.saveTimerRef = none) (htos : w.timeouts = []) (hc : 0 < c.length) :
    TrackerInv (step w t (Event.contentChange c)) t := by
  refine ⟨?_, ?_, w.nextTimeoutId, ?_, ?_⟩ <;>
    simp [step, applyEvent, fireDue, handleContentChange, clearTimeout,
      hm, href, htos, hc]

lemma step_inv {w : World} {tPrev t : ℕ} {c : List Char}
    (hInv : TrackerInv w tPrev) (hlt : t < tPrev + 900) (hc : 0 < c.length) :
    TrackerInv (step w t (Event.contentChange c)) t := by
  obtain ⟨hm, hs, i, href, htos⟩ := hInv
  have hnd : ¬ (tPrev + 900 ≤ t) := by omega
  refine ⟨?_, ?_, w.nextTimeoutId, ?_, ?_⟩ <;>
    simp [step, applyEvent, fireDue, handleContentChange, clearTimeout,
      hm, href, htos, hc, hnd]

lemma statusAtFrom_inv :
    ∀ (calls : List (ℕ × List Char)) (w : World) (tPrev : ℕ),
      TrackerInv w tPrev →
      List.Chain (fun a b => a ≤ b ∧ b < a + 900) tPrev (calls.map Prod.fst) →
      (∀ p ∈ calls, 0 < p.2.length) →
      ∀ T : ℕ,
        (T < (calls.map Prod.fst).getLastD tPrev + 900 →
          statusAtFrom w (evsOf calls) T = SaveStatus.Editing)
        ∧ ((calls.map Prod.fst).getLastD tPrev + 900 ≤ T →
          statusAtFrom w (evsOf calls) T = SaveStatus.Saved) := by
  intro calls
  induction calls with
  | nil =>
    intro w tPrev hInv _ _ T
    constructor
    · intro hT
      have : statusAtFrom w (evsOf []) T = (fireDue w T).saveStatus :=
        statusAtFrom_of_future (by intro p hp; cases hp)
      rw [this]
      exact inv_fireDue_editing hInv (by simpa using hT)
    · intro hT
      have : statusAtFrom w (evsOf []) T = (fireDue w T).saveStatus :=
        statusAtFrom_of_future (by intro p hp; cases hp)
      rw [this]
      exact inv_fireDue_saved hInv (by simpa using hT)
  | cons p rest ih =>
    obtain ⟨t, c⟩ := p
    intro w tPrev hInv hchain hpos T
    dsimp only [List.map_cons] at hchain
    rcases List.chain_cons.mp hchain with ⟨⟨hle, hlt⟩, hchain'⟩
    have hlast : ((((t, c) :: rest).map Prod.fst).getLastD tPrev)
        = (rest.map Prod.fst).getLastD t := by
      dsimp only [List.map_cons]
      rw [List.getLastD_cons]
    by_cases ht : t ≤ T
    · rw [evsOf_cons, statusAtFrom_cons ht, hlast]
      exact ih (step w t (Event.contentChange c)) t
        (step_inv hInv hlt (hpos (t, c) (by simp))) hchain'
        (fun q hq => hpos q (by simp [hq])) T
    · have hfuture : ∀ q ∈ evsOf ((t, c) :: rest), ¬ q.1 ≤ T := by
        intro q hq
        rcases List.mem_cons.mp hq with rfl | hq'
        · simpa using ht
        · obtain ⟨q', hq'', rfl⟩ := List.mem_map.mp hq'
          have : t ≤ q'.1 := chain_le_all hchain' q'.1 (List.mem_map_of_mem _ hq'')
          simp only []
          omega
      rw [statusAtFrom_of_future hfuture, hlast]
      constructor
      · intro _
        exact inv_fireDue_editing hInv (by omega)
      · intro hT
        have := chain_getLastD_ge hchain'
        omega

/-- C2: every call with `newLength > 0` synchronously sets the status to
`Editing`, clears the previously referenced timeout and schedules a fresh
timeout 900 units out; consequently, for any nonempty train of positive-length
calls whose consecutive gaps are below the 900-unit window, the status reads
`Editing` from the first call up to 899 units after the last call, and reads
`Saved` from 900 units after the last call on — only the last call's timeout
fires. -/
theorem saveStatus_debounce :
    (∀ (w : World) (now : ℕ) (content : List Char), 0 < content.length →
        (handleContentChange w now content).saveStatus = SaveStatus.Editing
        ∧ (handleContentChange w now content).saveTimerRef = some w.nextTimeoutId
        ∧ (handleContentChange w now content).timeouts
            = (match w.saveTimerRef with
               | some tid => clearTimeout w.timeouts tid
               | none => w.timeouts) ++ [⟨w.nextTimeoutId, now + 900⟩])
    ∧ ∀ (t0 : ℕ) (c0 : List Char) (calls : List (ℕ × List Char)),
        (∀ p ∈ (t0, c0) :: calls, 0 < p.2.length) →
        List.Chain (fun a b => a ≤ b ∧ b < a + 900) t0 (calls.map Prod.fst) →
        ∀ T : ℕ,
          (t0 ≤ T → T < (calls.map Prod.fst).getLastD t0 + 900 →
            statusAt (evsOf ((t0, c0) :: calls)) T = SaveStatus.Editing)
          ∧ ((calls.map Prod.fst).getLastD t0 + 900 ≤ T →
            statusAt (evsOf ((t0, c0) :: calls)) T = SaveStatus.Saved) := by
  constructor
  · intro w now content hc
    unfold handleContentChange
    rw [if_pos hc]
    cases href : w.saveTimerRef <;> simp [href, clearTimeout]
  · intro t0 c0 calls hpos hchain T
    have hInv : TrackerInv (step initialWorld t0 (Event.contentChange c0)) t0 :=
      step_first rfl rfl rfl (hpos (t0, c0) (by simp))
    have haux := statusAtFrom_inv calls _ t0 hInv hchain
      (fun q hq => hpos q (by simp [hq])) T
    constructor
    · intro ht0 hT
      rw [statusAt, evsOf_cons, statusAtFrom_cons ht0]
      exact haux.1 hT
    · intro hT
      have ht0 : t0 ≤ T := by
        have := chain_getLastD_ge hchain
        omega
      rw [statusAt, evsOf_cons, statusAtFrom_cons ht0]
      exact haux.2 hT

/-- Witness for C2: calls of length 1 at t = 0, 100, 200; the status is
`Editing` at t = 1099 and `Saved` at t = 1100 = 200 + 900. -/
theorem saveStatus_debounce_witness :
    (handleContentChange initialWorld 0 ['a']).saveStatus = SaveStatus.Editing
    ∧ statusAt (evsOf [(0, ['a']), (100, ['a']), (200, ['a'])]) 1099
        = SaveStatus.Editing
    ∧ statusAt (evsOf [(0, ['a']), (100, ['a']), (200, ['a'])]) 1100
        = SaveStatus.Saved :=
  ⟨(saveStatus_debounce.1 initialWorld 0 ['a'] (by decide)).1,
   (saveStatus_debounce.2 0 ['a'] [(100, ['a']), (200, ['a'])]
      (by decide)
      (List.Chain.cons (by omega) (List.Chain.cons (by omega) List.Chain.nil))
      1099).1 (by decide) (by decide),
   (saveStatus_debounce.2 0 ['a'] [(100, ['a']), (200, ['a'])]
      (by decide)
      (List.Chain.cons (by omega) (List.Chain.cons (by omega) List.Chain.nil))
      1100).2 (by decide)⟩

lemma timerInv_initial : TimerInv initialWorld := by
  constructor
  · simp [initialWorld]
  · intro tm htm
    simp [initialWorld] at htm

lemma timerInv_fireDue {w : World} (now : ℕ) (h : TimerInv w) :
    TimerInv (fireDue w now) := by
  obtain ⟨h1, h2⟩ := h
  constructor
  · rw [fireDue_timeouts]
    exact le_trans (List.length_filter_le _ _) h1
  · intro tm htm
    rw [fireDue_timeouts] at htm
    rw [fireDue_saveTimerRef]
    exact h2 tm (List.mem_of_mem_filter htm)

lemma timerInv_none_timeouts {w : World} (h : TimerInv w)
    (href : w.saveTimerRef = none) : w.timeouts = [] := by
  rcases hl : w.timeouts with _ | ⟨tm, rest⟩
  · rfl
  · have := h.2 tm (by rw [hl]; simp)
    rw [href] at this
    cases this

lemma timerInv_clear {w : World} {i : ℕ} (h : TimerInv w)
    (href : w.saveTimerRef = some i) : clearTimeout w.timeouts i = [] := by
  unfold clearTimeout
  rw [List.filter_eq_nil_iff]
  intro tm htm
  have := h.2 tm htm
  rw [href] at this
  have hid : tm.id = i := by
    injection this with h'
    omega
  simp [hid]

lemma timerInv_handle {w : World} (now : ℕ) (c : List Char) (h : TimerInv w) :
    TimerInv (handleContentChange w now c) := by
  unfold handleContentChange
  split_ifs with hc
  · cases href : w.saveTimerRef with
    | none =>
      have h0 : w.timeouts = [] := timerInv_none_timeouts h href
      constructor
      · simp [href, h0]
      · intro tm htm
        simp [href, h0] at htm ⊢
        simp [htm]
    | some i =>
      have h0 : clearTimeout w.timeouts i = [] := timerInv_clear h href
      constructor
      · simp [href, h0]
      · intro tm htm
        simp [href, h0] at htm ⊢
        simp [htm]
  · exact h

lemma goodWorld_step {w : World} (now : ℕ) (e : Event)
    (h1 : TimerInv w) (h2 : w.mounted = false → w.timeouts = []) :
    TimerInv (step w now e)
    ∧ ((step w now e).mounted = false → (step w now e).timeouts = []) := by
  have h1f : TimerInv (fireDue w now) := timerInv_fireDue now h1
  have h2f : (fireDue w now).mounted = false → (fireDue w now).timeouts = [] := by
    intro hm
    rw [fireDue_mounted] at hm
    rw [fireDue_timeouts, h2 hm]
    rfl
  cases e with
  | contentChange c =>
    rw [show step w now (Event.contentChange c)
        = (if (fireDue w now).mounted = true
           then handleContentChange (fireDue w now) now c
           else fireDue w now) from rfl]
    by_cases hm : (fireDue w now).mounted = true
    · rw [if_pos hm]
      refine ⟨timerInv_handle now c h1f, ?_⟩
      intro hmm
      rw [handleContentChange_mounted, hm] at hmm
      cases hmm
    · rw [if_neg hm]
      exact ⟨h1f, fun _ => h2f (by revert hm; cases (fireDue w now).mounted <;> simp)⟩
  | unmount =>
    simp only [step, applyEvent]
    by_cases hm : (fireDue w now).mounted = true
    · rw [if_pos hm]
      cases href : (fireDue w now).saveTimerRef with
      | none =>
        have h0 : (fireDue w now).timeouts = [] := timerInv_none_timeouts h1f href
        refine ⟨⟨?_, ?_⟩, ?_⟩
        · simp [h0]
        · intro tm htm
          simp [h0] at htm
        · intro _
          simp [h0]
      | some i =>
        have h0 : clearTimeout (fireDue w now).timeouts i = [] := timerInv_clear h1f href
        refine ⟨⟨?_, ?_⟩, ?_⟩
        · simp [h0]
        · intro tm htm
          simp [h0] at htm
        · intro _
          simp [h0]
    · rw [if_neg hm]
      exact ⟨h1f, fun _ => h2f (by revert hm; cases (fireDue w now).mounted <;> simp)⟩

lemma goodWorld_run :
    ∀ (evs : List (ℕ × Event)) (w : World),
      TimerInv w → (w.mounted = false → w.timeouts = []) →
      TimerInv (run w evs)
      ∧ ((run w evs).mounted = false → (run w evs).timeouts = []) := by
  intro evs
  induction evs with
  | nil => intro w h1 h2; exact ⟨h1, h2⟩
  | cons p rest ih =>
    obtain ⟨t, e⟩ := p
    intro w h1 h2
    have := goodWorld_step t e h1 h2
    exact ih (step w t e) this.1 this.2

/-- C7: after any sequence of events, the tracker has at most one live
(pending, unfired, uncancelled) timeout; and a content-change call with
positive length on a world satisfying the timer invariant first cancels the
referenced timeout and replaces it — the live timeouts afterwards are exactly
the single freshly scheduled one. -/
theorem at_most_one_timeout :
    (∀ evs : List (ℕ × Event), (run initialWorld evs).timeouts.length ≤ 1)
    ∧ (∀ (w : World) (now : ℕ) (content : List Char),
        TimerInv w → 0 < content.length →
        (handleContentChange w now content).timeouts
          = [⟨w.nextTimeoutId, now + 900⟩]) := by
  constructor
  · intro evs
    exact (goodWorld_run evs initialWorld timerInv_initial (by intro h; cases h)).1.1
  · intro w now content h hc
    unfold handleContentChange
    rw [if_pos hc]
    cases href : w.saveTimerRef with
    | none =>
      have h0 : w.timeouts = [] := timerInv_none_timeouts h href
      simp [href, h0]
    | some i =>
      have h0 : clearTimeout w.timeouts i = [] := timerInv_clear h href
      simp [href, h0]

/-- Witness for C7: the cancel-and-replace clause applied to a mid-debounce
world holding one live timeout. -/
theorem at_most_one_timeout_witness :
    (handleContentChange
        { saveStatus := SaveStatus.Editing, saveTimerRef := some 1,
          contentLength := 1, paragraphCount := 1,
          timeouts := [⟨1, 900⟩], nextTimeoutId := 2, mounted := true }
        100 ['a']).timeouts = [⟨2, 1000⟩] :=
  at_most_one_timeout.2
    { saveStatus := SaveStatus.Editing, saveTimerRef := some 1,
      contentLength := 1, paragraphCount := 1,
      timeouts := [⟨1, 900⟩], nextTimeoutId := 2, mounted := true }
    100 ['a']
    ⟨by decide, fun tm htm => by
      simp only [List.mem_singleton] at htm
      rw [htm]⟩
    (by decide)

lemma dead_step (w : World) (t : ℕ) (e : Event)
    (hm : w.mounted = false) (ht : w.timeouts = []) : step w t e = w := by
  obtain ⟨ss, ref, cl, pc, tos, nid, m⟩ := w
  simp only at hm ht
  subst hm
  subst ht
  cases e <;> rfl

lemma dead_run (evs : List (ℕ × Event)) (w : World)
    (hm : w.mounted = false) (ht : w.timeouts = []) : run w evs = w := by
  induction evs with
  | nil => rfl
  | cons p rest ih =>
    obtain ⟨t, e⟩ := p
    show run (step w t e) rest = w
    rw [dead_step w t e hm ht]
    exact ih

/-- C8: delivering the unmount event (at any time, after any history) runs
the `useEffect` cleanup: it cancels the pending timeout, leaving no live
timeout, and afterwards the status can never change again — at every later
observation time, after any further events, the status is exactly the status
at teardown. -/
theorem unmount_teardown (evs : List (ℕ × Event)) (tU : ℕ)
    (moreEvs : List (ℕ × Event)) (T : ℕ) :
    (step (run initialWorld evs) tU Event.unmount).timeouts = []
    ∧ (step (run initialWorld evs) tU Event.unmount).mounted = false
    ∧ statusAtFrom (step (run initialWorld evs) tU Event.unmount) moreEvs T
        = (step (run initialWorld evs) tU Event.unmount).saveStatus := by
  have hgood := goodWorld_run evs initialWorld timerInv_initial (by intro h; cases h)
  have hstep := goodWorld_step tU Event.unmount hgood.1 hgood.2
  have hmount : (step (run initialWorld evs) tU Event.unmount).mounted = false := by
    show (applyEvent (fireDue (run initialWorld evs) tU) tU Event.unmount).mounted = false
    simp only [applyEvent]
    by_cases hm : (fireDue (run initialWorld evs) tU).mounted = true
    · rw [if_pos hm]
    · rw [if_neg hm]
      rw [fireDue_mounted] at hm ⊢
      revert hm
      cases (run initialWorld evs).mounted <;> simp
  have htos : (step (run initialWorld evs) tU Event.unmount).timeouts = [] :=
    hstep.2 hmount
  refine ⟨htos, hmount, ?_⟩
  unfold statusAtFrom
  rw [dead_run _ _ hmount htos]
  rw [show (fireDue (step (run initialWorld evs) tU Event.unmount) T).saveStatus
      = (step (run initialWorld evs) tU Event.unmount).saveStatus from by
    unfold fireDue
    rw [htos]
    rfl]
